import Mathlib

/-!
Verification of the birthday-projection and response-parsing core of the
`carddav_birthdays` Home Assistant integration.

The Python source (files `__init__.py` and `sensor.py`) is embedded shallowly:

* `Date` models `datetime.date` (proleptic Gregorian, years 1..9999);
  `mkDate` models the fallible constructor (`none` = `ValueError`).
* `strptimeYMD` models `datetime.strptime(s, "%Y-%m-%d").date()` on the
  character list of the input string.
* `parseBday`, `nextOccurrence`, `getNextBirthday` embed
  `CardDavBirthdaySensor._get_next_birthday` (sensor.py, lines 106-155).
* `projectContact`, `getNextBirthdayData` embed
  `CardDavNextBirthdaySensor._get_next_birthday_data` (sensor.py, lines 188-255).
  Python's stable `list.sort(key=lambda x: x[0])` is modelled by
  `List.insertionSort` over the key order (insertion sort is stable).
* `processCard`, `parseContacts` embed `CardDavCoordinator._parse_contacts`
  (`__init__.py`, lines 135-185); the external XML and vCard libraries are
  modelled by the `Envelope` data type and a `readOne` oracle parameter.
-/

namespace CardDavBirthdays

/-- A calendar date, modelling Python's `datetime.date` value. -/
structure Date where
  year : Nat
  month : Nat
  day : Nat
deriving DecidableEq, Repr, Inhabited

/-- Gregorian leap-year rule, as used by Python's `datetime` module. -/
def isLeap (y : Nat) : Bool :=
  y % 4 == 0 && (y % 100 != 0 || y % 400 == 0)

/-- Number of days in month `m` of year `y` (Python `calendar`/`datetime` rule). -/
def daysInMonth (y m : Nat) : Nat :=
  if m == 2 then (if isLeap y then 29 else 28)
  else if m == 4 || m == 6 || m == 9 || m == 11 then 30
  else 31

/-- Validity of a `Date`, exactly the check Python's `date` constructor performs
(`MINYEAR = 1`, `MAXYEAR = 9999`, month and day in range). -/
def Date.valid (d : Date) : Bool :=
  decide (1 ≤ d.year ∧ d.year ≤ 9999 ∧ 1 ≤ d.month ∧ d.month ≤ 12 ∧
          1 ≤ d.day ∧ d.day ≤ daysInMonth d.year d.month)

/-- `datetime.date(y, m, d)`: `some` on a valid date; `none` models the
`ValueError` Python raises on an invalid combination. -/
def mkDate (y m d : Nat) : Option Date :=
  if (Date.mk y m d).valid then some (Date.mk y m d) else none

/-- Python `date` comparison `a < b` (lexicographic on year, month, day). -/
def dateLt (a b : Date) : Bool :=
  decide (a.year < b.year ∨ (a.year = b.year ∧
    (a.month < b.month ∨ (a.month = b.month ∧ a.day < b.day))))

/-- Days before January 1 of year `y` in the proleptic Gregorian calendar
(the `_days_before_year` helper underlying Python's `date.toordinal`). -/
def daysBeforeYear (y : Nat) : Nat :=
  365 * (y - 1) + (y - 1) / 4 + (y - 1) / 400 - (y - 1) / 100

/-- Cumulative day counts before each month in a non-leap year. -/
def cumDays (m : Nat) : Nat :=
  match m with
  | 0 => 0 | 1 => 0 | 2 => 31 | 3 => 59 | 4 => 90 | 5 => 120 | 6 => 151
  | 7 => 181 | 8 => 212 | 9 => 243 | 10 => 273 | 11 => 304 | 12 => 334
  | _ => 365

/-- Days in year `y` before the first of month `m` (Python `_days_before_month`). -/
def daysBeforeMonth (y m : Nat) : Nat :=
  cumDays m + (if 3 ≤ m ∧ isLeap y = true then 1 else 0)

/-- Python `date.toordinal`: day number in the proleptic Gregorian calendar,
with `0001-01-01` being day 1. -/
def toOrdinal (d : Date) : Nat :=
  daysBeforeYear d.year + daysBeforeMonth d.year d.month + d.day

/-- `(a - b).days` for Python dates: difference of ordinals. -/
def dateSub (a b : Date) : Int :=
  (toOrdinal a : Int) - (toOrdinal b : Int)

/-- Python `s.split('T')[0]`, on the character list of `s`: the characters
before the first `'T'`. -/
def beforeT (cs : List Char) : List Char := cs.takeWhile (fun c => c ≠ 'T')

/-- Python `s.split('-')` on a character list: split at every dash, keeping
empty pieces (so the result is always non-empty). -/
def splitDash : List Char → List (List Char)
  | [] => [[]]
  | c :: cs =>
    if c = '-' then [] :: splitDash cs
    else
      match splitDash cs with
      | [] => [[c]]
      | p :: ps => (c :: p) :: ps

/-- All characters are ASCII digits and there is at least one. -/
def isDigits (cs : List Char) : Bool := !cs.isEmpty && cs.all (fun c => c.isDigit)

/-- Decimal value of a digit string. -/
def digitsVal (cs : List Char) : Nat := cs.foldl (fun n c => 10 * n + (c.toNat - 48)) 0

/-- Model of `datetime.strptime(s, "%Y-%m-%d").date()`: CPython's `_strptime`
matches `%Y` as exactly four digits, `%m` and `%d` as one or two digits, the
dashes literally, requires the whole string to be consumed, and then builds a
`date`, which validates ranges; any failure raises `ValueError` (`none`). -/
def strptimeYMD (cs : List Char) : Option Date :=
  match splitDash cs with
  | [ys, ms, ds] =>
    if ys.length = 4 ∧ isDigits ys = true ∧
       isDigits ms = true ∧ ms.length ≤ 2 ∧
       isDigits ds = true ∧ ds.length ≤ 2 then
      mkDate (digitsVal ys) (digitsVal ms) (digitsVal ds)
    else none
  | _ => none

/-- Python `s.startswith('--')`. -/
def startsWithDashDash : List Char → Bool
  | '-' :: '-' :: _ => true
  | _ => false

/-- The parsing phase of `_get_next_birthday` (sensor.py lines 112-132): a
string of length ≥ 10 is split at `'T'` and parsed as `YYYY-MM-DD`
(`has_year = true`); otherwise a string starting with `--` has the mock year
`2000` prefixed to its tail and is parsed the same way (`has_year = false`);
anything else is unrecognized.  `none` covers both explicit
`return None, None` branches and the caught `ValueError`s. -/
def parseBday (s : String) : Option (Date × Bool) :=
  let cs := s.data
  if 10 ≤ cs.length then
    match strptimeYMD (beforeT cs) with
    | some bday => some (bday, true)
    | none => none
  else if startsWithDashDash cs then
    match strptimeYMD ('2' :: '0' :: '0' :: '0' :: cs.drop 2) with
    | some bday => some (bday, false)
    | none => none
  else none

/-- The projection phase of `_get_next_birthday` (sensor.py lines 134-146):
place the birthday in today's year, falling back to March 1 when the
construction raises (Feb 29 in a non-leap year); if the candidate is strictly
before today, redo both steps in next year.  A `ValueError` escaping even the
fallback construction (only possible when the year leaves Python's range) is
caught by the enclosing `except` and modelled as `none`. -/
def nextOccurrence (bday today : Date) : Option Date :=
  let cand1 :=
    match mkDate today.year bday.month bday.day with
    | some c => some c
    | none => mkDate today.year 3 1
  match cand1 with
  | none => none
  | some cand =>
    if dateLt cand today then
      match mkDate (today.year + 1) bday.month bday.day with
      | some c => some c
      | none => mkDate (today.year + 1) 3 1
    else
      some cand

/-- `CardDavBirthdaySensor._get_next_birthday` (sensor.py lines 106-155),
as a function of the birthday string and of `date.today()`: returns the pair
`(next_bday, age)`, with `(none, none)` for every unparsable or failing case. -/
def getNextBirthday (s : String) (today : Date) : Option Date × Option Int :=
  match parseBday s with
  | none => (none, none)
  | some (bday, hasYear) =>
    match nextOccurrence bday today with
    | none => (none, none)
    | some nb =>
      (some nb, if hasYear then some ((nb.year : Int) - (bday.year : Int)) else none)

/-- The `Contact` named tuple of `__init__.py` (lines 26-30). -/
structure Contact where
  uid : String
  name : String
  birthday : String
deriving DecidableEq, Repr, Inhabited

/-- One entry of the `upcoming` list built by `_get_next_birthday_data`
(sensor.py line 228): the Python tuple `(days_diff, next_bday, contact.name, age)`. -/
structure Upcoming where
  daysUntil : Int
  nextBday : Date
  cname : String
  age : Option Int
deriving DecidableEq, Repr, Inhabited

/-- The key order used by `upcoming.sort(key=lambda x: x[0])`. -/
def upLE (a b : Upcoming) : Prop := a.daysUntil ≤ b.daysUntil

instance : DecidableRel upLE := fun a b => Int.decLe a.daysUntil b.daysUntil

instance : IsTotal Upcoming upLE := ⟨fun a b => Int.le_total a.daysUntil b.daysUntil⟩

instance : IsTrans Upcoming upLE := ⟨fun _ _ _ hab hbc => Int.le_trans hab hbc⟩

/-- One iteration of the `for contact in contacts` loop of
`_get_next_birthday_data` (sensor.py lines 197-231): parse the birthday
string, project it, and build the `upcoming` tuple; every failure path
(`continue`, caught exception) is `none`. -/
def projectContact (today : Date) (c : Contact) : Option Upcoming :=
  match parseBday c.birthday with
  | none => none
  | some (bday, hasYear) =>
    match nextOccurrence bday today with
    | none => none
    | some nb =>
      some ⟨dateSub nb today, nb, c.name,
            if hasYear then some ((nb.year : Int) - (bday.year : Int)) else none⟩

/-- The `upcoming` list of `_get_next_birthday_data` in contact order. -/
def upcomingOf (contacts : List Contact) (today : Date) : List Upcoming :=
  contacts.filterMap (projectContact today)

/-- The Python value bound to `final_age`: either a single `int | None`, or the
list of per-contact ages when the tied contacts disagree. -/
inductive AgeOrAges where
  | single : Option Int → AgeOrAges
  | multiple : List (Option Int) → AgeOrAges
deriving DecidableEq, Repr

/-- Lines 236-255 of sensor.py, applied to the already-sorted `upcoming`
list: `min_days` is `upcoming[0][0]`, `matches` filters on it, and the final
date, names and age(s) are read off the matches.  The empty case is
`if not upcoming: return None, [], None` (line 233, checked before sorting;
sorting preserves emptiness so matching the sorted list is equivalent). -/
def aggregateSorted : List Upcoming → Option Date × List String × AgeOrAges
  | [] => (none, [], AgeOrAges.single none)
  | first :: rest =>
    let minDays := first.daysUntil
    let matchesL := (first :: rest).filter (fun x => x.daysUntil == minDays)
    let finalDate := (matchesL.headD default).nextBday
    let finalNames := matchesL.map (fun x => x.cname)
    let finalAges := matchesL.map (fun x => x.age)
    let finalAge :=
      if finalAges.all (fun x => x == finalAges.headD none) then
        AgeOrAges.single (finalAges.headD none)
      else AgeOrAges.multiple finalAges
    (some finalDate, finalNames, finalAge)

/-- `CardDavNextBirthdaySensor._get_next_birthday_data` (sensor.py lines
188-255).  Python's in-place `upcoming.sort(key=lambda x: x[0])` is a stable
sort by `days_diff`, modelled by `List.insertionSort upLE` (insertion sort is
stable); the leading `match` is the `if not contacts` guard of line 191. -/
def getNextBirthdayData (contacts : List Contact) (today : Date) :
    Option Date × List String × AgeOrAges :=
  match contacts with
  | [] => (none, [], AgeOrAges.single none)
  | _ :: _ =>
    aggregateSorted (List.insertionSort upLE (upcomingOf contacts today))

/-- Abstraction of one parsed vCard as seen by `_parse_contacts` through the
`vobject` library: the lists of values of the `UID`, `FN` and `BDAY`
properties (`vcard.contents['uid']` etc.; an absent key is the empty list,
`vcard.bday.value` is the head of the `bday` list, already a string). -/
structure VCard where
  uid : List String
  fn : List String
  bday : List String
deriving DecidableEq, Repr

/-- Abstraction of `xml.etree.ElementTree.fromstring` plus
`root.findall(".//{urn:ietf:params:xml:ns:carddav}address-data")` applied to
the raw response body: either the document is not well-formed XML
(`ET.ParseError`), or it yields the list of `address-data` elements, each
carrying its optional text content (`elem.text` is `None` for an empty
element). -/
inductive Envelope where
  | malformed
  | parsed (elems : List (Option String))

/-- The per-element body of the `for elem in address_data_elements` loop of
`_parse_contacts` (`__init__.py` lines 151-179), parametrized by the
behaviour `readOne` of `vobject.readOne` (`none` = the library raised).
Returns the contact appended for this element, if any. -/
def processCard (readOne : String → Option VCard) (elemText : Option String) :
    Option Contact :=
  match elemText with
  | none => none
  | some txt =>
    if txt = "" then none
    else
      match readOne txt with
      | none => none
      | some vcard =>
        match vcard.uid.head? with
        | none => none
        | some uid =>
          if uid = "" then none
          else
            let fn := vcard.fn.headD "Unknown"
            match vcard.bday.head? with
            | none => none
            | some bday => some (Contact.mk uid fn bday)

/-- `CardDavCoordinator._parse_contacts` (`__init__.py` lines 135-185):
a malformed envelope raises `UpdateFailed("Invalid XML from server")`
(modelled by `Except.error`); otherwise the per-element results are collected
in element order. -/
def parseContacts (readOne : String → Option VCard) (env : Envelope) :
    Except String (List Contact) :=
  match env with
  | .malformed => Except.error "Invalid XML from server"
  | .parsed elems => Except.ok (elems.filterMap (processCard readOne))

/-- Number of days in year `y`. -/
def daysInYear (y : Nat) : Nat := if isLeap y then 366 else 365

/-- The candidate occurrence of birthday `bd` in year `y`, as the code
constructs it (sensor.py lines 135-140 and 143-146): `bday.replace(year=y)`
when that is a valid date, otherwise the fixed March 1 fallback. -/
def occurrenceIn (bd : Date) (y : Nat) : Date :=
  (mkDate y bd.month bd.day).getD (Date.mk y 3 1)

/-- Test fixture for the tie-break example: birthday in 3 days from
2025-03-01. -/
def contactA : Contact := Contact.mk "uidA" "A" "1990-03-04"

/-- Test fixture: birthday in 5 days from 2025-03-01. -/
def contactB : Contact := Contact.mk "uidB" "B" "1991-03-06"

/-- Test fixture: birthday in 5 days from 2025-03-01 (ties with `contactB`). -/
def contactC : Contact := Contact.mk "uidC" "C" "1992-03-06"

/-- A concrete `vobject.readOne` behaviour: one card with a `UID` and one
card without any `UID` property. -/
def readOneExample : String → Option VCard := fun s =>
  if s = "card-with-uid" then some (VCard.mk ["uid-1"] ["Alice"] ["1990-01-01"])
  else if s = "card-missing-uid" then some (VCard.mk [] ["Bob"] ["1991-02-02"])
  else none

/-- A concrete `vobject.readOne` behaviour whose card carries a `UID`
property with an empty-string value. -/
def readOneEmptyUid : String → Option VCard := fun _ =>
  some (VCard.mk [""] ["Nameless"] ["1990-01-01"])

/-! ### Arithmetic facts about the date model -/

theorem isLeap_iff (y : Nat) :
    isLeap y = true ↔ (y % 4 = 0 ∧ (y % 100 ≠ 0 ∨ y % 400 = 0)) := by
  simp [isLeap, Bool.and_eq_true, Bool.or_eq_true]

set_option maxHeartbeats 1000000 in
theorem daysBeforeYear_succ (y : Nat) (hy : 1 ≤ y) :
    daysBeforeYear (y + 1) = daysBeforeYear y + daysInYear y := by
  have h := isLeap_iff y
  unfold daysInYear daysBeforeYear
  by_cases hL : isLeap y = true
  · rw [if_pos hL]
    have hc := h.mp hL
    omega
  · rw [if_neg hL]
    have hc : ¬ (y % 4 = 0 ∧ (y % 100 ≠ 0 ∨ y % 400 = 0)) := fun hc => hL (h.mpr hc)
    omega

theorem daysInYear_ge (y : Nat) : 365 ≤ daysInYear y := by
  unfold daysInYear; split <;> omega

theorem daysBeforeYear_le (y1 y2 : Nat) (h1 : 1 ≤ y1) (h : y1 ≤ y2) :
    daysBeforeYear y1 ≤ daysBeforeYear y2 := by
  induction y2, h using Nat.le_induction with
  | base => exact le_refl _
  | succ n hn ih =>
    have hn1 : 1 ≤ n := le_trans h1 hn
    calc daysBeforeYear y1 ≤ daysBeforeYear n := ih
      _ ≤ daysBeforeYear (n + 1) := by
          rw [daysBeforeYear_succ n hn1]; omega

theorem daysBeforeMonth_succ (y m : Nat) (h1 : 1 ≤ m) (h2 : m ≤ 12) :
    daysBeforeMonth y (m + 1) = daysBeforeMonth y m + daysInMonth y m := by
  rcases Bool.eq_false_or_eq_true (isLeap y) with hL | hL <;>
    (interval_cases m <;> simp [daysBeforeMonth, cumDays, daysInMonth, hL])

theorem daysBeforeMonth_le (y m m' : Nat) (h : m ≤ m') (h' : m' ≤ 13) :
    daysBeforeMonth y m ≤ daysBeforeMonth y m' := by
  rcases Bool.eq_false_or_eq_true (isLeap y) with hL | hL <;>
    (interval_cases m' <;> interval_cases m <;>
      simp [daysBeforeMonth, cumDays, hL])

theorem daysBeforeMonth_add_le (y m : Nat) (h1 : 1 ≤ m) (h2 : m ≤ 12) :
    daysBeforeMonth y m + daysInMonth y m ≤ daysInYear y := by
  rcases Bool.eq_false_or_eq_true (isLeap y) with hL | hL <;>
    (interval_cases m <;>
      simp [daysBeforeMonth, cumDays, daysInMonth, daysInYear, hL])

theorem monthday_lt (y m1 d1 m2 d2 : Nat) (hm1 : 1 ≤ m1) (hm12 : m1 ≤ 12)
    (hd1 : d1 ≤ daysInMonth y m1) (hm22 : m2 ≤ 12) (hd2 : 1 ≤ d2)
    (hlt : m1 < m2) :
    daysBeforeMonth y m1 + d1 < daysBeforeMonth y m2 + d2 := by
  have h2 : daysBeforeMonth y m1 + daysInMonth y m1 = daysBeforeMonth y (m1 + 1) :=
    (daysBeforeMonth_succ y m1 hm1 hm12).symm
  have h3 : daysBeforeMonth y (m1 + 1) ≤ daysBeforeMonth y m2 :=
    daysBeforeMonth_le y (m1 + 1) m2 hlt (by omega)
  omega

theorem monthday_inj (y m1 d1 m2 d2 : Nat) (hm1 : 1 ≤ m1) (hm12 : m1 ≤ 12)
    (hd1 : 1 ≤ d1) (hd1' : d1 ≤ daysInMonth y m1)
    (hm2 : 1 ≤ m2) (hm22 : m2 ≤ 12)
    (hd2 : 1 ≤ d2) (hd2' : d2 ≤ daysInMonth y m2)
    (heq : daysBeforeMonth y m1 + d1 = daysBeforeMonth y m2 + d2) :
    m1 = m2 ∧ d1 = d2 := by
  rcases Nat.lt_trichotomy m1 m2 with h | h | h
  · exact absurd heq (Nat.ne_of_lt (monthday_lt y m1 d1 m2 d2 hm1 hm12 hd1' hm22 hd2 h))
  · exact ⟨h, by rw [h] at heq; omega⟩
  · exact absurd heq.symm
      (Nat.ne_of_lt (monthday_lt y m2 d2 m1 d1 hm2 hm22 hd2' hm12 hd1 h))

/-- Unpacked form of `Date.valid`. -/
theorem Date.valid_iff (d : Date) :
    d.valid = true ↔ (1 ≤ d.year ∧ d.year ≤ 9999 ∧ 1 ≤ d.month ∧ d.month ≤ 12 ∧
      1 ≤ d.day ∧ d.day ≤ daysInMonth d.year d.month) := by
  simp [Date.valid]

theorem toOrdinal_bounds (d : Date) (h : d.valid = true) :
    daysBeforeYear d.year + 1 ≤ toOrdinal d ∧
      toOrdinal d ≤ daysBeforeYear (d.year + 1) := by
  obtain ⟨h1, h2, h3, h4, h5, h6⟩ := (Date.valid_iff d).mp h
  have hub := daysBeforeMonth_add_le d.year d.month h3 h4
  have hs := daysBeforeYear_succ d.year h1
  unfold toOrdinal
  omega

/-- `toOrdinal` is injective on valid dates. -/
theorem toOrdinal_inj (d1 d2 : Date) (h1 : d1.valid = true) (h2 : d2.valid = true)
    (heq : toOrdinal d1 = toOrdinal d2) : d1 = d2 := by
  obtain ⟨h11, h12, h13, h14, h15, h16⟩ := (Date.valid_iff d1).mp h1
  obtain ⟨h21, h22, h23, h24, h25, h26⟩ := (Date.valid_iff d2).mp h2
  have hb1 := toOrdinal_bounds d1 h1
  have hb2 := toOrdinal_bounds d2 h2
  have hy : d1.year = d2.year := by
    by_contra hne
    rcases Nat.lt_or_ge d1.year d2.year with hlt | hge
    · have hle : daysBeforeYear (d1.year + 1) ≤ daysBeforeYear d2.year :=
        daysBeforeYear_le _ _ (by omega) hlt
      omega
    · have hlt : d2.year < d1.year := by omega
      have hle : daysBeforeYear (d2.year + 1) ≤ daysBeforeYear d1.year :=
        daysBeforeYear_le _ _ (by omega) hlt
      omega
  have heq2 : daysBeforeMonth d2.year d1.month + d1.day =
      daysBeforeMonth d2.year d2.month + d2.day := by
    unfold toOrdinal at heq
    rw [hy] at heq
    omega
  rw [hy] at h16
  obtain ⟨hm, hd⟩ := monthday_inj d2.year d1.month d1.day d2.month d2.day
    h13 h14 h15 h16 h23 h24 h25 h26 heq2
  cases d1
  cases d2
  simp_all

/-! ### Facts about date construction and projection -/

theorem mkDate_some {y m d : Nat} {c : Date} (h : mkDate y m d = some c) :
    c = Date.mk y m d ∧ c.valid = true := by
  unfold mkDate at h
  split at h
  · cases h
    exact ⟨rfl, by assumption⟩
  · cases h

theorem mkDate_of_valid {y m d : Nat} (h : (Date.mk y m d).valid = true) :
    mkDate y m d = some (Date.mk y m d) := by
  unfold mkDate
  rw [if_pos h]

theorem mkDate_march1 (y : Nat) (h1 : 1 ≤ y) (h2 : y ≤ 9999) :
    mkDate y 3 1 = some (Date.mk y 3 1) := by
  apply mkDate_of_valid
  rw [Date.valid_iff]
  dsimp only
  have h31 : daysInMonth y 3 = 31 := rfl
  omega

theorem occurrenceIn_year (b : Date) (y : Nat) : (occurrenceIn b y).year = y := by
  unfold occurrenceIn
  rcases h : mkDate y b.month b.day with _ | c
  · simp
  · simp [(mkDate_some h).1]

theorem occurrenceIn_valid (b : Date) (y : Nat) (h1 : 1 ≤ y) (h2 : y ≤ 9999) :
    (occurrenceIn b y).valid = true := by
  unfold occurrenceIn
  rcases h : mkDate y b.month b.day with _ | c
  · simp only [Option.getD_none]
    have := mkDate_march1 y h1 h2
    exact ((mkDate_some this).2)
  · simpa using (mkDate_some h).2

/-- With a valid `today` below the year cap, the projection loop always
produces the candidate described by `occurrenceIn`: this year's occurrence,
or next year's when this year's is already past. -/
theorem nextOccurrence_eq (b t : Date) (ht : t.valid = true) (hy : t.year + 1 ≤ 9999) :
    nextOccurrence b t =
      some (if dateLt (occurrenceIn b t.year) t = true
            then occurrenceIn b (t.year + 1)
            else occurrenceIn b t.year) := by
  obtain ⟨ht1, ht2, _⟩ := (Date.valid_iff t).mp ht
  have h31 := mkDate_march1 t.year ht1 ht2
  have h31' := mkDate_march1 (t.year + 1) (by omega) hy
  unfold nextOccurrence occurrenceIn
  rcases h1 : mkDate t.year b.month b.day with _ | c
  · rw [h31]
    simp only [Option.getD_none, Option.getD_some]
    split
    · rcases h2 : mkDate (t.year + 1) b.month b.day with _ | c2
      · rw [h31']
        simp
      · simp
    · rfl
  · simp only [Option.getD_some]
    split
    · rcases h2 : mkDate (t.year + 1) b.month b.day with _ | c2
      · rw [h31']
        simp
      · simp
    · rfl

/-- Every date the projection returns went through the `date` constructor,
hence is valid. -/
theorem nextOccurrence_valid {b t nb : Date} (h : nextOccurrence b t = some nb) :
    nb.valid = true := by
  unfold nextOccurrence at h
  rcases h1 : mkDate t.year b.month b.day with _ | c <;> rw [h1] at h
  · rcases h2 : mkDate t.year 3 1 with _ | c2 <;> rw [h2] at h <;>
      simp only [] at h
    · cases h
    · split at h
      · rcases h3 : mkDate (t.year + 1) b.month b.day with _ | c3 <;> rw [h3] at h
        · exact (mkDate_some h).2
        · cases h
          exact (mkDate_some h3).2
      · cases h
        exact (mkDate_some h2).2
  · simp only [] at h
    split at h
    · rcases h3 : mkDate (t.year + 1) b.month b.day with _ | c3 <;> rw [h3] at h
      · exact (mkDate_some h).2
      · cases h
        exact (mkDate_some h3).2
    · cases h
      exact (mkDate_some h1).2

theorem dateLt_irrefl (a : Date) : dateLt a a = false := by
  simp [dateLt]

theorem dateLt_of_year_gt {a b : Date} (h : b.year < a.year) : dateLt a b = false := by
  simp only [dateLt, decide_eq_false_iff_not]
  omega

/-! ### Stability of the sort step of the aggregator -/

theorem filter_orderedInsert_neg (p : Upcoming → Bool) (a : Upcoming)
    (ha : p a = false) (t : List Upcoming) :
    (List.orderedInsert upLE a t).filter p = t.filter p := by
  induction t with
  | nil => simp [ha]
  | cons b t ih =>
    simp only [List.orderedInsert]
    split
    · simp [List.filter_cons, ha]
    · simp only [List.filter_cons, ih]

theorem orderedInsert_min (a : Upcoming) (t : List Upcoming)
    (h : ∀ x ∈ t, upLE a x) : List.orderedInsert upLE a t = a :: t := by
  cases t with
  | nil => rfl
  | cons b t =>
    simp only [List.orderedInsert]
    rw [if_pos (h b (List.mem_cons_self b t))]

/-- Stability of the sort at the minimum key: filtering the sorted list for a
key below every element gives the same list, in the same order, as filtering
the unsorted list. -/
theorem filter_insertionSort_min (m : Int) :
    ∀ l : List Upcoming, (∀ x ∈ l, m ≤ x.daysUntil) →
      (List.insertionSort upLE l).filter (fun x => x.daysUntil == m) =
        l.filter (fun x => x.daysUntil == m) := by
  intro l
  induction l with
  | nil => intro _; rfl
  | cons a l ih =>
    intro hmin
    have htail : ∀ x ∈ l, m ≤ x.daysUntil :=
      fun x hx => hmin x (List.mem_cons_of_mem a hx)
    simp only [List.insertionSort]
    by_cases ha : (a.daysUntil == m) = true
    · have haeq : a.daysUntil = m := by simpa using ha
      have hfront : List.orderedInsert upLE a (List.insertionSort upLE l) =
          a :: List.insertionSort upLE l := by
        apply orderedInsert_min
        intro x hx
        have hxl : x ∈ l := (List.mem_insertionSort upLE).mp hx
        have hxm := htail x hxl
        show a.daysUntil ≤ x.daysUntil
        omega
      rw [hfront, List.filter_cons, List.filter_cons]
      simp only [ha, if_true, ih htail]
    · have ha' : (a.daysUntil == m) = false := by simpa using ha
      rw [filter_orderedInsert_neg _ a ha', List.filter_cons]
      simp only [ha', if_false]
      exact ih htail

theorem all_map_age (l : List Upcoming) (a : Option Int) :
    ((l.map (fun x => x.age)).all (fun x => x == a)) =
      l.all (fun x => x.age == a) := by
  induction l with
  | nil => rfl
  | cons b l ih => simp [List.all_cons, ih]

/-- Lines 240-255 of sensor.py in explicit form, for a non-empty sorted
list. -/
theorem aggregateSorted_cons (a : Upcoming) (t : List Upcoming) :
    aggregateSorted (a :: t) =
      (some a.nextBday,
       (a :: t.filter (fun x => x.daysUntil == a.daysUntil)).map (fun x => x.cname),
       if (a :: t.filter (fun x => x.daysUntil == a.daysUntil)).all
            (fun x => x.age == a.age) then
         AgeOrAges.single a.age
       else
         AgeOrAges.multiple
           ((a :: t.filter (fun x => x.daysUntil == a.daysUntil)).map
             (fun x => x.age))) := by
  have hfc : (a :: t).filter (fun x => x.daysUntil == a.daysUntil) =
      a :: t.filter (fun x => x.daysUntil == a.daysUntil) := by
    simp [List.filter_cons]
  simp only [aggregateSorted]
  rw [hfc]
  simp only [List.headD_cons, List.map_cons, List.all_cons, beq_self_eq_true,
    Bool.true_and, all_map_age]

/-- The behaviour of `_get_next_birthday_data` on a collection with at least
one projectable record: there is a minimal `days_until` value attained by a
first tied entry `m0`, the tied group is the filter of the (unsorted)
`upcoming` list at that value, and the result components are read off the
tied group. -/
theorem getNextBirthdayData_spec (contacts : List Contact) (today : Date)
    (h : upcomingOf contacts today ≠ []) :
    ∃ (m0 : Upcoming) (mrest : List Upcoming),
      m0 ∈ upcomingOf contacts today ∧
      (∀ x ∈ upcomingOf contacts today, m0.daysUntil ≤ x.daysUntil) ∧
      (upcomingOf contacts today).filter (fun x => x.daysUntil == m0.daysUntil) =
        m0 :: mrest ∧
      getNextBirthdayData contacts today =
        (some m0.nextBday,
         (m0 :: mrest).map (fun x => x.cname),
         if (m0 :: mrest).all (fun x => x.age == m0.age) then
           AgeOrAges.single m0.age
         else
           AgeOrAges.multiple ((m0 :: mrest).map (fun x => x.age))) := by
  cases contacts with
  | nil => exact absurd rfl h
  | cons c cs =>
    rcases hs : List.insertionSort upLE (upcomingOf (c :: cs) today)
      with _ | ⟨first, rest⟩
    · exfalso
      apply h
      have hlen := List.length_insertionSort upLE (upcomingOf (c :: cs) today)
      rw [hs] at hlen
      exact List.eq_nil_of_length_eq_zero hlen.symm
    · have hsorted := List.sorted_insertionSort upLE (upcomingOf (c :: cs) today)
      rw [hs] at hsorted
      have hmin : ∀ x ∈ upcomingOf (c :: cs) today, first.daysUntil ≤ x.daysUntil := by
        intro x hx
        have hxs : x ∈ List.insertionSort upLE (upcomingOf (c :: cs) today) :=
          (List.mem_insertionSort upLE).mpr hx
        rw [hs] at hxs
        rcases List.mem_cons.mp hxs with rfl | hxr
        · exact Int.le_refl _
        · exact List.rel_of_sorted_cons hsorted x hxr
      have hfirstmem : first ∈ upcomingOf (c :: cs) today := by
        have hm : first ∈ List.insertionSort upLE (upcomingOf (c :: cs) today) := by
          rw [hs]
          exact List.mem_cons_self _ _
        exact (List.mem_insertionSort upLE).mp hm
      have hstab := filter_insertionSort_min first.daysUntil
        (upcomingOf (c :: cs) today) hmin
      rw [hs] at hstab
      have hfc : (first :: rest).filter (fun x => x.daysUntil == first.daysUntil) =
          first :: rest.filter (fun x => x.daysUntil == first.daysUntil) := by
        simp [List.filter_cons]
      refine ⟨first, rest.filter (fun x => x.daysUntil == first.daysUntil),
        hfirstmem, hmin, ?_, ?_⟩
      · rw [← hstab, hfc]
      · show aggregateSorted (List.insertionSort upLE (upcomingOf (c :: cs) today)) = _
        rw [hs, aggregateSorted_cons]

/-- Every entry of the `upcoming` list carries a valid projected date, and its
`days_diff` component is the date difference its tuple was built from. -/
theorem upcoming_mem_spec {contacts : List Contact} {today : Date} {x : Upcoming}
    (hx : x ∈ upcomingOf contacts today) :
    x.nextBday.valid = true ∧ x.daysUntil = dateSub x.nextBday today := by
  unfold upcomingOf at hx
  rcases List.mem_filterMap.mp hx with ⟨c, _, hc⟩
  unfold projectContact at hc
  rcases hpb : parseBday c.birthday with _ | ⟨bd, hasYear⟩
  · simp only [hpb] at hc
    exact Option.noConfusion hc
  · simp only [hpb] at hc
    rcases hno : nextOccurrence bd today with _ | nb
    · simp only [hno] at hc
      exact Option.noConfusion hc
    · simp only [hno, Option.some.injEq] at hc
      rw [← hc]
      exact ⟨nextOccurrence_valid hno, rfl⟩

/-- A contact on which the Projector fails contributes nothing to the
`upcoming` list. -/
theorem projectContact_eq_none_of {c : Contact} {today : Date}
    (h : getNextBirthday c.birthday today = (none, none)) :
    projectContact today c = none := by
  rcases hpb : parseBday c.birthday with _ | ⟨bd, hasYear⟩
  · simp [projectContact, hpb]
  · rcases hno : nextOccurrence bd today with _ | nb
    · simp [projectContact, hpb, hno]
    · simp [getNextBirthday, hpb, hno] at h

theorem upcomingOf_eq_nil {contacts : List Contact} {today : Date}
    (h : ∀ c ∈ contacts, projectContact today c = none) :
    upcomingOf contacts today = [] := by
  unfold upcomingOf
  induction contacts with
  | nil => rfl
  | cons c cs ih =>
    rw [List.filterMap_cons]
    simp only [h c (List.mem_cons_self c cs)]
    exact ih (fun c' hc' => h c' (List.mem_cons_of_mem c hc'))

/-- When the parsed birthday has today's month and day, this year's candidate
is today itself. -/
theorem occurrenceIn_eq_today {bd t : Date} (ht : t.valid = true)
    (hm : bd.month = t.month) (hd : bd.day = t.day) :
    occurrenceIn bd t.year = t := by
  unfold occurrenceIn
  rw [hm, hd]
  have heta : Date.mk t.year t.month t.day = t := rfl
  have hmk : mkDate t.year t.month t.day = some t := by
    have := mkDate_of_valid (y := t.year) (m := t.month) (d := t.day)
      (by rw [heta]; exact ht)
    rw [heta] at this
    exact this
  rw [hmk]
  rfl

/-! ### The claims -/

/-- Claim C1 (code bug): the spec says the `--MM-DD` branch parses the
trailing month/day against the leap-capable mock year 2000 and, for birthday
`--02-29` with today 2025-03-01, yields next occurrence 2025-03-01.  The code
instead builds `f"2000{bday_str[2:]}"` = `"200002-29"` — the dash separating
the mock year is lost, `strptime` with format `%Y-%m-%d` rejects it, and the
caught `ValueError` makes the whole projection `(None, None)`.  The last two
conjuncts show the one-character nature of the slip: the intended string
`"2000-02-29"` parses, and projecting the parsed date from 2025-03-01 gives
exactly the 2025-03-01 the spec promises. -/
theorem claim1_yearless_branch_dead :
    getNextBirthday "--02-29" (Date.mk 2025 3 1) = (none, none) ∧
    strptimeYMD ("200002-29".data) = none ∧
    strptimeYMD ("2000-02-29".data) = some (Date.mk 2000 2 29) ∧
    nextOccurrence (Date.mk 2000 2 29) (Date.mk 2025 3 1) =
      some (Date.mk 2025 3 1) := by
  decide

/-- Claim C2, counterexample: for the valid full-date birthday string
`"2000-01-01"` and the valid reference date 9999-12-31 (the largest Python
date), the claimed "next_occurrence ≥ today in this or next year" fails:
constructing the next-year candidate raises (year 10000 is out of range), the
exception is caught, and the result is `(None, None)` instead of a date. -/
theorem claim2_counterexample :
    (Date.mk 9999 12 31).valid = true ∧
    strptimeYMD (beforeT ("2000-01-01".data)) = some (Date.mk 2000 1 1) ∧
    getNextBirthday "2000-01-01" (Date.mk 9999 12 31) = (none, none) := by
  decide

/-- Claim C2 (amended with `today.year + 1 ≤ 9999`, the condition forced by
the counterexample): for every string parsing strictly as `YYYY-MM-DD`
(length ≥ 10, with any `T`-suffix removed) and every valid reference date
below the year cap, the projected next occurrence exists, is not before
today, is the (March-1-substituted) occurrence of the birthday's month/day in
today's year or the next, and equals today itself when month and day match
today's. -/
theorem claim2_full_date_projection (s : String) (bd t : Date)
    (hp : strptimeYMD (beforeT s.data) = some bd)
    (hl : 10 ≤ s.data.length)
    (ht : t.valid = true) (hy : t.year + 1 ≤ 9999) :
    ∃ nb : Date, (getNextBirthday s t).1 = some nb ∧
      dateLt nb t = false ∧
      (nb = occurrenceIn bd t.year ∨ nb = occurrenceIn bd (t.year + 1)) ∧
      (bd.month = t.month → bd.day = t.day → nb = t) := by
  have hpb : parseBday s = some (bd, true) := by
    unfold parseBday
    rw [if_pos hl, hp]
  have hno := nextOccurrence_eq bd t ht hy
  by_cases hcond : dateLt (occurrenceIn bd t.year) t = true
  · rw [if_pos hcond] at hno
    refine ⟨occurrenceIn bd (t.year + 1), ?_, ?_, Or.inr rfl, ?_⟩
    · simp [getNextBirthday, hpb, hno]
    · apply dateLt_of_year_gt
      rw [occurrenceIn_year]
      omega
    · intro hm hd
      exfalso
      rw [occurrenceIn_eq_today ht hm hd, dateLt_irrefl] at hcond
      cases hcond
  · rw [if_neg hcond] at hno
    have hcf : dateLt (occurrenceIn bd t.year) t = false := by
      cases hb : dateLt (occurrenceIn bd t.year) t
      · rfl
      · exact absurd hb hcond
    refine ⟨occurrenceIn bd t.year, ?_, hcf, Or.inl rfl, ?_⟩
    · simp [getNextBirthday, hpb, hno]
    · intro hm hd
      exact occurrenceIn_eq_today ht hm hd

/-- Claim C2, witness at the concrete input `"1990-04-15"`,
today 2025-03-01. -/
theorem claim2_witness :
    ∃ nb : Date,
      (getNextBirthday "1990-04-15" (Date.mk 2025 3 1)).1 = some nb ∧
      dateLt nb (Date.mk 2025 3 1) = false ∧
      (nb = occurrenceIn (Date.mk 1990 4 15) 2025 ∨
        nb = occurrenceIn (Date.mk 1990 4 15) 2026) ∧
      ((Date.mk 1990 4 15).month = 3 → (Date.mk 1990 4 15).day = 1 →
        nb = Date.mk 2025 3 1) :=
  claim2_full_date_projection "1990-04-15" (Date.mk 1990 4 15) (Date.mk 2025 3 1)
    (by decide) (by decide) (by decide) (by decide)

/-- Claim C3: whenever at least one record survives projection, `tied_names`
is exactly the names of the surviving records whose `days_until` equals the
minimum, in their original relative order (the filter of the unsorted
`upcoming` list); concretely, for A (3 days), B (5 days), C (5 days) only A
is picked. -/
theorem claim3_tie_order (contacts : List Contact) (today : Date)
    (h : upcomingOf contacts today ≠ []) :
    (∃ m0 : Upcoming,
       m0 ∈ upcomingOf contacts today ∧
       (∀ x ∈ upcomingOf contacts today, m0.daysUntil ≤ x.daysUntil) ∧
       (getNextBirthdayData contacts today).2.1 =
         ((upcomingOf contacts today).filter
             (fun x => x.daysUntil == m0.daysUntil)).map (fun x => x.cname)) ∧
    (getNextBirthdayData [contactA, contactB, contactC]
        (Date.mk 2025 3 1)).2.1 = ["A"] := by
  constructor
  · obtain ⟨m0, mrest, hmem, hmin, hfil, hres⟩ :=
      getNextBirthdayData_spec contacts today h
    refine ⟨m0, hmem, hmin, ?_⟩
    rw [hres, hfil]
  · decide

/-- Claim C3, witness on the concrete three-contact example. -/
theorem claim3_witness :
    (∃ m0 : Upcoming,
       m0 ∈ upcomingOf [contactA, contactB, contactC] (Date.mk 2025 3 1) ∧
       (∀ x ∈ upcomingOf [contactA, contactB, contactC] (Date.mk 2025 3 1),
          m0.daysUntil ≤ x.daysUntil) ∧
       (getNextBirthdayData [contactA, contactB, contactC]
           (Date.mk 2025 3 1)).2.1 =
         ((upcomingOf [contactA, contactB, contactC] (Date.mk 2025 3 1)).filter
             (fun x => x.daysUntil == m0.daysUntil)).map (fun x => x.cname)) ∧
    (getNextBirthdayData [contactA, contactB, contactC]
        (Date.mk 2025 3 1)).2.1 = ["A"] :=
  claim3_tie_order [contactA, contactB, contactC] (Date.mk 2025 3 1) (by decide)

/-- Claim C4: for a non-empty tie group, when every tied record has the same
`age_turning` value (the first one's), `age_or_ages` is that single value;
otherwise it is the list of the tied records' ages, in tie order. -/
theorem claim4_age_or_ages (contacts : List Contact) (today : Date)
    (h : upcomingOf contacts today ≠ []) :
    ∃ (m0 : Upcoming) (mrest : List Upcoming),
      (upcomingOf contacts today).filter (fun x => x.daysUntil == m0.daysUntil) =
        m0 :: mrest ∧
      (∀ x ∈ upcomingOf contacts today, m0.daysUntil ≤ x.daysUntil) ∧
      ((∀ x ∈ m0 :: mrest, x.age = m0.age) →
        (getNextBirthdayData contacts today).2.2 = AgeOrAges.single m0.age) ∧
      (¬ (∀ x ∈ m0 :: mrest, x.age = m0.age) →
        (getNextBirthdayData contacts today).2.2 =
          AgeOrAges.multiple ((m0 :: mrest).map (fun x => x.age))) := by
  obtain ⟨m0, mrest, hmem, hmin, hfil, hres⟩ :=
    getNextBirthdayData_spec contacts today h
  refine ⟨m0, mrest, hfil, hmin, ?_, ?_⟩
  · intro hall
    rw [hres]
    have hb : (m0 :: mrest).all (fun x => x.age == m0.age) = true := by
      rw [List.all_eq_true]
      intro x hx
      exact beq_iff_eq.mpr (hall x hx)
    simp [hb]
  · intro hnall
    rw [hres]
    have hb : ¬ ((m0 :: mrest).all (fun x => x.age == m0.age) = true) := by
      rw [List.all_eq_true]
      intro hcontra
      exact hnall (fun x hx => beq_iff_eq.mp (hcontra x hx))
    simp [hb]

/-- Claim C4, witness: two tied contacts with different birth years (ages 34
and 33) produce the `multiple` list. -/
theorem claim4_witness :
    ∃ (m0 : Upcoming) (mrest : List Upcoming),
      (upcomingOf [contactB, contactC] (Date.mk 2025 3 1)).filter
          (fun x => x.daysUntil == m0.daysUntil) = m0 :: mrest ∧
      (∀ x ∈ upcomingOf [contactB, contactC] (Date.mk 2025 3 1),
         m0.daysUntil ≤ x.daysUntil) ∧
      ((∀ x ∈ m0 :: mrest, x.age = m0.age) →
        (getNextBirthdayData [contactB, contactC] (Date.mk 2025 3 1)).2.2 =
          AgeOrAges.single m0.age) ∧
      (¬ (∀ x ∈ m0 :: mrest, x.age = m0.age) →
        (getNextBirthdayData [contactB, contactC] (Date.mk 2025 3 1)).2.2 =
          AgeOrAges.multiple ((m0 :: mrest).map (fun x => x.age))) :=
  claim4_age_or_ages [contactB, contactC] (Date.mk 2025 3 1) (by decide)

/-- Claim C5: for a well-formed envelope the parser collects the per-card
results in order; a card whose text fails `vobject` parsing, lacks a `UID`
property, or lacks a `BDAY` property is skipped without failing the batch; a
card with all of them present yields its Contact Record; and the concrete
two-entry envelope with one card missing `UID` yields exactly one record. -/
theorem claim5_card_skip (readOne : String → Option VCard) (txt : String)
    (v : VCard) :
    (∀ elems : List (Option String),
       parseContacts readOne (Envelope.parsed elems) =
         Except.ok (elems.filterMap (processCard readOne))) ∧
    (readOne txt = none → processCard readOne (some txt) = none) ∧
    (readOne txt = some v → v.uid = [] → processCard readOne (some txt) = none) ∧
    (readOne txt = some v → v.bday = [] → processCard readOne (some txt) = none) ∧
    (∀ u b : String, txt ≠ "" → readOne txt = some v → v.uid.head? = some u →
       u ≠ "" → v.bday.head? = some b →
       processCard readOne (some txt) =
         some (Contact.mk u (v.fn.headD "Unknown") b)) ∧
    parseContacts readOneExample
        (Envelope.parsed [some "card-with-uid", some "card-missing-uid"]) =
      Except.ok [Contact.mk "uid-1" "Alice" "1990-01-01"] := by
  refine ⟨fun _ => rfl, ?_, ?_, ?_, ?_, by rfl⟩
  · intro h
    by_cases he : txt = ""
    · simp [processCard, he]
    · simp [processCard, he, h]
  · intro h huid
    by_cases he : txt = ""
    · simp [processCard, he]
    · simp [processCard, he, h, huid]
  · intro h hbday
    by_cases he : txt = ""
    · simp [processCard, he]
    · rcases hu : v.uid with _ | ⟨u, us⟩
      · simp [processCard, he, h, hu]
      · by_cases hue : u = ""
        · simp [processCard, he, h, hu, hue]
        · simp [processCard, he, h, hu, hue, hbday]
  · intro u b he h hu hue hb
    simp [processCard, he, h, hu, hue, hb]

/-- Claim C5, witness: the card without a `UID` property is skipped. -/
theorem claim5_witness :
    processCard readOneExample (some "card-missing-uid") = none :=
  (claim5_card_skip readOneExample "card-missing-uid"
      (VCard.mk [] ["Bob"] ["1991-02-02"])).2.2.1 (by decide) rfl

/-- Claim C6: the Projector is total — it is a function returning a pair, a
failing first component forces the whole result to be `(None, None)` (every
caught exception and unrecognized shape lands there), any string that is
neither ≥ 10 characters nor starting with `--` yields `(None, None)`, and in
particular the garbage string `"birthday"` does. -/
theorem claim6_projector_total (s : String) (t : Date) :
    ((getNextBirthday s t).1 = none → getNextBirthday s t = (none, none)) ∧
    (s.data.length < 10 → startsWithDashDash s.data = false →
      getNextBirthday s t = (none, none)) ∧
    getNextBirthday "birthday" t = (none, none) := by
  refine ⟨?_, ?_, rfl⟩
  · intro h1
    rcases hpb : parseBday s with _ | ⟨bd, hasYear⟩
    · simp [getNextBirthday, hpb]
    · rcases hno : nextOccurrence bd t with _ | nb
      · simp [getNextBirthday, hpb, hno]
      · simp [getNextBirthday, hpb, hno] at h1
  · intro h1 h2
    have hlen : ¬ (10 ≤ s.data.length) := by omega
    have hpb : parseBday s = none := by
      simp only [parseBday]
      rw [if_neg hlen]
      simp [h2]
    simp [getNextBirthday, hpb]

/-- Claim C6, witness at the one-character string `"x"`. -/
theorem claim6_witness :
    getNextBirthday "x" (Date.mk 2025 1 1) = (none, none) :=
  (claim6_projector_total "x" (Date.mk 2025 1 1)).2.1 (by decide) (by decide)

/-- Claim C7: a response body that is not well-formed XML makes the cycle
fail with `UpdateFailed("Invalid XML from server")` and never produces a
(possibly partial) contact list. -/
theorem claim7_malformed_envelope (readOne : String → Option VCard) :
    parseContacts readOne Envelope.malformed =
      Except.error "Invalid XML from server" ∧
    ∀ l : List Contact,
      parseContacts readOne Envelope.malformed ≠ Except.ok l := by
  refine ⟨rfl, ?_⟩
  intro l h
  exact Except.noConfusion h

/-- Claim C8: an empty contact collection, or one in which every record's
projection is `(None, None)`, produces the empty aggregate
`(None, [], None)` instead of an error. -/
theorem claim8_empty_aggregate (contacts : List Contact) (today : Date) :
    (contacts = [] →
      getNextBirthdayData contacts today = (none, [], AgeOrAges.single none)) ∧
    ((∀ c ∈ contacts, getNextBirthday c.birthday today = (none, none)) →
      getNextBirthdayData contacts today = (none, [], AgeOrAges.single none)) := by
  constructor
  · rintro rfl
    rfl
  · intro hall
    have hnil : upcomingOf contacts today = [] :=
      upcomingOf_eq_nil (fun c hc => projectContact_eq_none_of (hall c hc))
    cases contacts with
    | nil => rfl
    | cons c cs =>
      show aggregateSorted
        (List.insertionSort upLE (upcomingOf (c :: cs) today)) = _
      rw [hnil]
      rfl

/-- Claim C8, witness: one contact with an unparsable birthday string. -/
theorem claim8_witness :
    getNextBirthdayData [Contact.mk "u" "X" "garbage"] (Date.mk 2025 1 1) =
      (none, [], AgeOrAges.single none) :=
  (claim8_empty_aggregate [Contact.mk "u" "X" "garbage"] (Date.mk 2025 1 1)).2
    (by decide)

/-- Claim C9: all records of the tie group carry the same projected date —
equal `days_until` against a fixed today forces equal ordinals, and ordinals
are injective on valid dates — and the aggregate's `next_occurrence` is that
shared date. -/
theorem claim9_shared_date (contacts : List Contact) (today : Date)
    (h : upcomingOf contacts today ≠ []) :
    ∃ m0 : Upcoming,
      m0 ∈ upcomingOf contacts today ∧
      (∀ x ∈ upcomingOf contacts today, m0.daysUntil ≤ x.daysUntil) ∧
      (∀ x ∈ (upcomingOf contacts today).filter
          (fun x => x.daysUntil == m0.daysUntil), x.nextBday = m0.nextBday) ∧
      (getNextBirthdayData contacts today).1 = some m0.nextBday := by
  obtain ⟨m0, mrest, hmem, hmin, hfil, hres⟩ :=
    getNextBirthdayData_spec contacts today h
  refine ⟨m0, hmem, hmin, ?_, by rw [hres]⟩
  intro x hx
  have hxm : x ∈ upcomingOf contacts today := List.mem_of_mem_filter hx
  have hkey : x.daysUntil = m0.daysUntil := by
    have hb := List.of_mem_filter hx
    simpa using hb
  obtain ⟨hv1, hd1⟩ := upcoming_mem_spec hxm
  obtain ⟨hv0, hd0⟩ := upcoming_mem_spec hmem
  have hord : toOrdinal x.nextBday = toOrdinal m0.nextBday := by
    rw [hd1, hd0] at hkey
    unfold dateSub at hkey
    omega
  exact toOrdinal_inj _ _ hv1 hv0 hord

/-- Claim C9, witness: two contacts tied five days out share 2025-03-06. -/
theorem claim9_witness :
    ∃ m0 : Upcoming,
      m0 ∈ upcomingOf [contactB, contactC] (Date.mk 2025 3 1) ∧
      (∀ x ∈ upcomingOf [contactB, contactC] (Date.mk 2025 3 1),
         m0.daysUntil ≤ x.daysUntil) ∧
      (∀ x ∈ (upcomingOf [contactB, contactC] (Date.mk 2025 3 1)).filter
          (fun x => x.daysUntil == m0.daysUntil), x.nextBday = m0.nextBday) ∧
      (getNextBirthdayData [contactB, contactC] (Date.mk 2025 3 1)).1 =
        some m0.nextBday :=
  claim9_shared_date [contactB, contactC] (Date.mk 2025 3 1) (by decide)

/-- Claim C10: a `UID` property whose first value is the empty string is
treated exactly like a missing `UID` (the check is on truthiness), so the
card is discarded, and consequently every emitted Contact Record has a
non-empty `uid`. -/
theorem claim10_empty_uid (readOne : String → Option VCard) (txt : String)
    (v : VCard) (elems : List (Option String)) :
    (readOne txt = some v → v.uid.head? = some "" →
      processCard readOne (some txt) = none) ∧
    (∀ c ∈ elems.filterMap (processCard readOne), c.uid ≠ "") := by
  constructor
  · intro h hu
    by_cases he : txt = ""
    · simp [processCard, he]
    · simp [processCard, he, h, hu]
  · intro c hc
    rcases List.mem_filterMap.mp hc with ⟨oe, _, hoe⟩
    rcases oe with _ | txt'
    · exact Option.noConfusion hoe
    · by_cases he : txt' = ""
      · simp [processCard, he] at hoe
      · rcases hro : readOne txt' with _ | w
        · simp [processCard, he, hro] at hoe
        · rcases hu : w.uid.head? with _ | u
          · simp [processCard, he, hro, hu] at hoe
          · by_cases hue : u = ""
            · simp [processCard, he, hro, hu, hue] at hoe
            · rcases hb : w.bday.head? with _ | b
              · simp [processCard, he, hro, hu, hue, hb] at hoe
              · simp [processCard, he, hro, hu, hue, hb] at hoe
                rw [← hoe]
                simpa using hue

/-- Claim C10, witness: the card whose `UID` value is the empty string is
discarded. -/
theorem claim10_witness :
    processCard readOneEmptyUid (some "x") = none :=
  (claim10_empty_uid readOneEmptyUid "x"
      (VCard.mk [""] ["Nameless"] ["1990-01-01"]) []).1 rfl rfl

end CardDavBirthdays
